import Mathlib

/-!
Verification of the confirmation-windowed block scanner and log decoder of
`forge-cli` (`src/script.py`), as a shallow embedding in Lean 4.

Byte strings are `List Nat` (each entry a byte value), heights are `Int`
(Python integers), and Python exceptions are the `Except` error channel.
The ledger client and its network are modelled as an explicit parameter
(`QueryResult` / the `head` field of `CycleInput`) supplied to each call.
-/

namespace ForgeBridge

/-- Big-endian interpretation of a byte string as an unsigned integer,
embedding `Web3.to_int` (which accepts any length; empty bytes give 0). -/
def bytesToNat (bs : List Nat) : Nat :=
  bs.foldl (fun acc b => acc * 256 + b) 0

/-- The big-endian `k`-byte encoding of `n` (most significant byte first),
used only to build synthetic logs for the round-trip property. -/
def natToBytesBE : Nat → Nat → List Nat
  | 0, _ => []
  | k + 1, n => natToBytesBE k (n / 256) ++ [n % 256]

/-- A raw event log as delivered by `w3.eth.get_logs`: the indexed topic
values, the non-indexed data buffer, the transaction hash bytes and the
block number (`src/script.py`, `LogReceipt` usage in `_parse_log`). -/
structure RawLog where
  topics : List (List Nat)
  data : List Nat
  transactionHash : List Nat
  blockNumber : Int
deriving DecidableEq, Repr

/-- The Python exceptions `_parse_log` can raise: `IndexError` from
`log['topics'][i]`, `ValueError` from `Web3.to_checksum_address` /
`Web3.to_int(hexstr=...)` on malformed input. `scan_blocks` treats them
all alike, so only the error/success distinction matters. -/
inductive DecodeErr where
  | indexError : DecodeErr
  | valueError : DecodeErr
deriving DecidableEq, Repr

/-- The parsed event dictionary built by `_parse_log` (keys `token`,
`sender`, `nonce`, `amount`, `destinationChainId`, `transactionHash`,
`blockNumber`). Addresses are kept as their 20-byte values: checksum
normalization only fixes the casing of the hex rendering, so the byte
value is the canonical representation. -/
structure DecodedEvent where
  token : List Nat
  sender : List Nat
  nonce : Nat
  amount : Nat
  destinationChainId : Nat
  transactionHash : List Nat
  blockNumber : Int
deriving DecidableEq, Repr

/-- `log['topics'][i]`: `IndexError` when the topic list is too short. -/
def getTopic (log : RawLog) (i : Nat) : Except DecodeErr (List Nat) :=
  match log.topics.get? i with
  | some t => .ok t
  | none => .error .indexError

/-- Embeds `Web3.to_checksum_address('0x' + topic.hex()[-40:])`: the last
40 hex characters are the last 20 bytes of the topic; a topic shorter than
20 bytes yields fewer than 40 hex characters (or drags in the `0x` prefix)
and `to_checksum_address` raises `ValueError`. On success the address
value is exactly those 20 bytes. -/
def checksumOfTopic (t : List Nat) : Except DecodeErr (List Nat) :=
  if t.length < 20 then .error .valueError
  else .ok (t.drop (t.length - 20))

/-- Embeds `Web3.to_int(hexstr=topic.hex())`: `int('', 16)` raises
`ValueError` on an empty topic, otherwise the big-endian value. -/
def toIntOfTopic (t : List Nat) : Except DecodeErr Nat :=
  if t.isEmpty then .error .valueError
  else .ok (bytesToNat t)

/-- `BridgeEventScanner._parse_log` (src/script.py lines 160-190):
topics 1/2 are checksummed addresses, topic 3 the nonce, data bytes
`[0:32)` the amount and `[32:64)` the destination chain id (Python slices
silently truncate when the buffer is short). -/
def _parse_log (log : RawLog) : Except DecodeErr DecodedEvent := do
  let t1 ← getTopic log 1
  let token ← checksumOfTopic t1
  let t2 ← getTopic log 2
  let sender ← checksumOfTopic t2
  let t3 ← getTopic log 3
  let nonce ← toIntOfTopic t3
  let amount := bytesToNat (log.data.take 32)
  let destinationChainId := bytesToNat ((log.data.drop 32).take 32)
  pure { token := token, sender := sender, nonce := nonce,
         amount := amount, destinationChainId := destinationChainId,
         transactionHash := log.transactionHash,
         blockNumber := log.blockNumber }

/-- The list comprehension `[self._parse_log(log) for log in logs]`:
logs are parsed left to right and the first exception aborts the whole
comprehension (propagating to the `except` clauses of `scan_blocks`). -/
def parseAll : List RawLog → Except DecodeErr (List DecodedEvent)
  | [] => .ok []
  | l :: ls =>
    match _parse_log l with
    | .error e => .error e
    | .ok ev =>
      match parseAll ls with
      | .error e => .error e
      | .ok evs => .ok (ev :: evs)

/-- Outcome of one `w3.eth.get_logs` call: a list of raw logs,
`BlockNotFound` (the range is not yet available), or any other
exception. -/
inductive QueryResult where
  | success : List RawLog → QueryResult
  | blockNotFound : QueryResult
  | otherError : QueryResult
deriving Repr

/-- `BridgeEventScanner.scan_blocks` (src/script.py lines 125-158).
The ledger's answer to the single range query is the explicit argument
`q`. The second component counts the `get_logs` network calls issued
(0 or 1). `from_block > to_block` returns early without querying; both
`except` clauses return the empty list. -/
def scan_blocks (from_block to_block : Int) (q : QueryResult) :
    List DecodedEvent × Nat :=
  if from_block > to_block then ([], 0)
  else
    match q with
    | .success logs =>
      match parseAll logs with
      | .ok evs => (evs, 1)
      | .error _ => ([], 1)
    | .blockNotFound => ([], 1)
    | .otherError => ([], 1)

/-- The environment of one main-loop cycle: what
`source_connector.get_latest_block()` reports (`none` models a raised
`ConnectionError`), and what the single `get_logs` call would answer. -/
structure CycleInput where
  head : Option Int
  query : QueryResult

/-- One iteration of the `while True` loop in `main`
(src/script.py lines 293-331), restricted to its effect on
`last_processed_block` and the scanned events. When the head is
available: `to_block = latest - confirmations`,
`from_block = cursor + 1`; if `from_block <= to_block` the scanner runs
and then `last_processed_block = to_block` is executed; otherwise the
cursor is untouched. A raised `ConnectionError` (head `none`) is caught
and leaves the cursor untouched. -/
def runCycle (confirmations cursor : Int) (inp : CycleInput) :
    Int × List DecodedEvent :=
  match inp.head with
  | none => (cursor, [])
  | some latest =>
    let to_block := latest - confirmations
    let from_block := cursor + 1
    if from_block ≤ to_block then
      (to_block, (scan_blocks from_block to_block inp.query).1)
    else
      (cursor, [])

/-- The cursor after one cycle. -/
def step (confirmations cursor : Int) (inp : CycleInput) : Int :=
  (runCycle confirmations cursor inp).1

/-- The cursor after a sequence of cycles. -/
def runCycles (confirmations cursor : Int) (inps : List CycleInput) : Int :=
  inps.foldl (step confirmations) cursor

/-- The block range a cycle commits (scans and then assigns to the
cursor), when it commits at all. -/
def commitRange (confirmations cursor : Int) (inp : CycleInput) :
    Option (Int × Int) :=
  match inp.head with
  | none => none
  | some latest =>
    let to_block := latest - confirmations
    let from_block := cursor + 1
    if from_block ≤ to_block then some (from_block, to_block) else none

/-- A synthetic raw log built with the fixed encoding: token and sender
right-aligned in 32-byte topic slots 1 and 2, nonce as a 256-bit integer
in topic slot 3, amount in data bytes `[0,32)` and destinationChainId in
data bytes `[32,64)`, big-endian. -/
def mkSyntheticLog (sig : List Nat) (token sender nonce amount dest : Nat)
    (txh : List Nat) (bn : Int) : RawLog :=
  { topics := [sig, natToBytesBE 32 token, natToBytesBE 32 sender,
               natToBytesBE 32 nonce],
    data := natToBytesBE 32 amount ++ natToBytesBE 32 dest,
    transactionHash := txh,
    blockNumber := bn }

/-! ### Concrete inputs used by counterexamples and witnesses -/

/-- A well-formed raw log (as a real node would deliver it). -/
def goodLogA : RawLog := mkSyntheticLog (natToBytesBE 32 0) 1 2 3 4 5 [170] 100

/-- A second well-formed raw log. -/
def goodLogB : RawLog := mkSyntheticLog (natToBytesBE 32 0) 6 7 8 9 10 [187] 101

/-- A truncated raw log: only one topic, so `log['topics'][1]` raises
`IndexError` in `_parse_log`. -/
def truncatedLog : RawLog :=
  { topics := [[0]], data := [], transactionHash := [7], blockNumber := 5 }

/-- A raw log with all 4 topic slots but only 10 bytes of data. -/
def shortDataLog : RawLog :=
  { topics := [natToBytesBE 32 0, natToBytesBE 32 1, natToBytesBE 32 2,
               natToBytesBE 32 3],
    data := [0, 0, 0, 0, 0, 0, 0, 0, 0, 42],
    transactionHash := [1],
    blockNumber := 7 }

/-! ### Helper lemmas -/

theorem length_natToBytesBE (k n : Nat) : (natToBytesBE k n).length = k := by
  induction k generalizing n with
  | zero => rfl
  | succ k ih => simp [natToBytesBE, ih]

theorem bytesToNat_append_singleton (xs : List Nat) (b : Nat) :
    bytesToNat (xs ++ [b]) = bytesToNat xs * 256 + b := by
  simp [bytesToNat, List.foldl_append]

theorem bytesToNat_natToBytesBE (k n : Nat) (h : n < 256 ^ k) :
    bytesToNat (natToBytesBE k n) = n := by
  induction k generalizing n with
  | zero =>
    interval_cases n
    rfl
  | succ k ih =>
    have hdiv : n / 256 < 256 ^ k := by
      rw [Nat.div_lt_iff_lt_mul (by norm_num : 0 < 256)]
      calc n < 256 ^ (k + 1) := h
        _ = 256 ^ k * 256 := by ring
    rw [natToBytesBE, bytesToNat_append_singleton, ih _ hdiv]
    omega

theorem natToBytesBE_add_of_lt (j k n : Nat) (h : n < 256 ^ k) :
    natToBytesBE (j + k) n = natToBytesBE j 0 ++ natToBytesBE k n := by
  induction k generalizing n with
  | zero =>
    interval_cases n
    simp [natToBytesBE]
  | succ k ih =>
    have hdiv : n / 256 < 256 ^ k := by
      rw [Nat.div_lt_iff_lt_mul (by norm_num : 0 < 256)]
      calc n < 256 ^ (k + 1) := h
        _ = 256 ^ k * 256 := by ring
    have : j + (k + 1) = (j + k) + 1 := by omega
    rw [this, natToBytesBE, ih _ hdiv, natToBytesBE, List.append_assoc]

theorem take_length_append (xs ys : List Nat) :
    (xs ++ ys).take xs.length = xs := by
  induction xs with
  | nil => rfl
  | cons a xs ih => simp [List.take, ih]

theorem drop_length_append (xs ys : List Nat) :
    (xs ++ ys).drop xs.length = ys := by
  induction xs with
  | nil => rfl
  | cons a xs ih => simp [List.drop, ih]

theorem drop12_natToBytesBE32 (n : Nat) (h : n < 256 ^ 20) :
    (natToBytesBE 32 n).drop 12 = natToBytesBE 20 n := by
  have h32 : (32 : Nat) = 12 + 20 := by norm_num
  rw [h32, natToBytesBE_add_of_lt 12 20 n h]
  have h12 : (natToBytesBE 12 0).length = 12 := length_natToBytesBE 12 0
  calc (natToBytesBE 12 0 ++ natToBytesBE 20 n).drop 12
      = (natToBytesBE 12 0 ++ natToBytesBE 20 n).drop
          (natToBytesBE 12 0).length := by rw [h12]
    _ = natToBytesBE 20 n := drop_length_append _ _

theorem parseAll_error_of_mem (logs : List RawLog) (l : RawLog)
    (hmem : l ∈ logs) (hbad : (_parse_log l).isOk = false) :
    ∃ e, parseAll logs = .error e := by
  induction logs with
  | nil => cases hmem
  | cons a as ih =>
    rcases List.mem_cons.mp hmem with h | h
    · subst h
      cases hl : _parse_log l with
      | error e => exact ⟨e, by simp [parseAll, hl]⟩
      | ok ev => rw [hl] at hbad; simp [Except.isOk, Except.toBool] at hbad
    · cases ha : _parse_log a with
      | error e => exact ⟨e, by simp [parseAll, ha]⟩
      | ok ev =>
        obtain ⟨e, he⟩ := ih h
        exact ⟨e, by simp [parseAll, ha, he]⟩

theorem take_all (xs : List Nat) : xs.take xs.length = xs := by
  induction xs with
  | nil => rfl
  | cons a l ih => simp [List.take, ih]

theorem checksumOfTopic_natToBytesBE (n : Nat) (h : n < 256 ^ 20) :
    checksumOfTopic (natToBytesBE 32 n) = .ok (natToBytesBE 20 n) := by
  have hl := length_natToBytesBE 32 n
  simp only [checksumOfTopic, hl]
  norm_num
  exact drop12_natToBytesBE32 n h

theorem toIntOfTopic_natToBytesBE (n : Nat) (h : n < 256 ^ 32) :
    toIntOfTopic (natToBytesBE 32 n) = .ok n := by
  have hl := length_natToBytesBE 32 n
  have hne : (natToBytesBE 32 n).isEmpty = false := by
    cases hE : natToBytesBE 32 n with
    | nil => rw [hE] at hl; simp at hl
    | cons a l => rfl
  simp only [toIntOfTopic, hne, Bool.false_eq_true, if_false]
  rw [bytesToNat_natToBytesBE 32 n h]

theorem cursor_le_step (confirmations cursor : Int) (inp : CycleInput) :
    cursor ≤ step confirmations cursor inp := by
  unfold step runCycle
  cases inp.head with
  | none => exact le_refl _
  | some latest =>
    dsimp only
    split
    · rename_i hc
      dsimp only
      omega
    · exact le_refl _

theorem take_append_eq (xs ys : List Nat) (n : Nat) (h : xs.length = n) :
    (xs ++ ys).take n = xs := by
  subst h
  exact take_length_append xs ys

theorem drop_append_eq (xs ys : List Nat) (n : Nat) (h : xs.length = n) :
    (xs ++ ys).drop n = ys := by
  subst h
  exact drop_length_append xs ys

theorem take_all_eq (xs : List Nat) (n : Nat) (h : xs.length = n) :
    xs.take n = xs := by
  subst h
  exact take_all xs

/-! ### Claims -/

/-- Claim C1 (code bug): the claim (and `scan_blocks`'s own warning message
"Will retry.") says that after a `BlockNotFound` cycle for `[100,110]` the
cursor stays at 99 and the next cycle retries from 100. The code instead
executes `last_processed_block = to_block` unconditionally after
`scan_blocks` returns, so the cursor jumps to 110 and the range `[100,110]`
is never scanned again: with the same head the next cycle does nothing, and
with a later head it starts at 111. -/
theorem rangeUnavailable_cursor_advances :
    commitRange 6 99 ⟨some 116, QueryResult.blockNotFound⟩ = some (100, 110) ∧
    runCycle 6 99 ⟨some 116, QueryResult.blockNotFound⟩ = (110, []) ∧
    commitRange 6 110 ⟨some 116, QueryResult.blockNotFound⟩ = none ∧
    commitRange 6 110 ⟨some 122, QueryResult.success []⟩ = some (111, 116) := by
  decide

/-- Claim C2 counterexample: a batch of 3 raw logs in which only the 2nd is
truncated does NOT yield the other 2 decoded events — `scan_blocks` returns
the empty list for the whole range, because the decode exception raised
inside the list comprehension is caught by the range-level `except` clause. -/
theorem malformed_log_counterexample :
    (_parse_log goodLogA).isOk = true ∧
    (_parse_log truncatedLog).isOk = false ∧
    (_parse_log goodLogB).isOk = true ∧
    (scan_blocks 100 102
      (QueryResult.success [goodLogA, truncatedLog, goodLogB])).1 = [] := by
  decide

/-- Claim C2 (amended): if any log of the batch is malformed, its decode
exception propagates out of the list comprehension to the `except` handler
of `scan_blocks`, which returns the empty list for the whole range — the
sibling logs are dropped too; no exception escapes the batch boundary. -/
theorem malformed_log_empties_batch (from_block to_block : Int)
    (logs : List RawLog) (l : RawLog) (hmem : l ∈ logs)
    (hbad : (_parse_log l).isOk = false) :
    (scan_blocks from_block to_block (QueryResult.success logs)).1 = [] := by
  obtain ⟨e, he⟩ := parseAll_error_of_mem logs l hmem hbad
  unfold scan_blocks
  by_cases hgt : from_block > to_block
  · rw [if_pos hgt]
  · rw [if_neg hgt]
    simp [he]

theorem malformed_log_empties_batch_witness :
    (_parse_log truncatedLog).isOk = false ∧
    (scan_blocks 100 102
      (QueryResult.success [goodLogA, truncatedLog, goodLogB])).1 = [] :=
  ⟨by decide,
   malformed_log_empties_batch 100 102 [goodLogA, truncatedLog, goodLogB]
     truncatedLog (by decide) (by decide)⟩

/-- Claim C3: in every cycle where `from_block <= to_block` and the scan
call returns, the cursor is unconditionally set to `to_block` afterwards —
the query outcome `q` is arbitrary, so a `BlockNotFound` result and an
empty result both commit the cursor; only a raised connection error (head
`none`) skips the commit. -/
theorem commit_unconditional (confirmations cursor latest : Int)
    (q : QueryResult) (h : cursor + 1 ≤ latest - confirmations) :
    step confirmations cursor ⟨some latest, q⟩ = latest - confirmations := by
  unfold step runCycle
  dsimp only
  rw [if_pos h]

theorem commit_unconditional_witness :
    (99 : Int) + 1 ≤ 120 - 6 ∧
    step 6 99 ⟨some 120, QueryResult.blockNotFound⟩ = 120 - 6 :=
  ⟨by norm_num, commit_unconditional 6 99 120 QueryResult.blockNotFound (by norm_num)⟩

/-- Claim C4 counterexample: a raw log with all 4 topic slots but only 10
bytes of data is NOT rejected as truncated — `_parse_log` returns a decoded
event, reading `amount` from the 10 bytes present and `destinationChainId`
as 0 from the empty slice `data[32:64]`. -/
theorem short_data_counterexample :
    shortDataLog.topics.length = 4 ∧
    shortDataLog.data.length = 10 ∧
    _parse_log shortDataLog =
      Except.ok { token := natToBytesBE 20 1, sender := natToBytesBE 20 2,
                  nonce := 3, amount := 42, destinationChainId := 0,
                  transactionHash := [1], blockNumber := 7 } := by
  refine ⟨by decide, by decide, ?_⟩
  rfl

/-- Claim C4 (amended): decoding a raw log requires at least 4 topic slots
(topics 1-3 are read); for every raw log with fewer than 4 topics, decode
fails with an exception rather than producing a decoded event. No minimum
data length is enforced: fewer than 64 data bytes still decodes, with the
missing bytes contributing nothing (see the counterexample). -/
theorem decode_requires_four_topics (log : RawLog)
    (h : log.topics.length < 4) : (_parse_log log).isOk = false := by
  have h3 : getTopic log 3 = Except.error DecodeErr.indexError := by
    unfold getTopic
    have hn : log.topics.get? 3 = none := by
      rw [List.get?_eq_none]
      omega
    rw [hn]
  unfold _parse_log
  cases h1 : getTopic log 1 with
  | error e => simp [h1, Except.isOk, Except.toBool, Except.bind, Bind.bind]
  | ok t1 =>
    cases hc1 : checksumOfTopic t1 with
    | error e => simp [h1, hc1, Except.isOk, Except.toBool, Except.bind, Bind.bind]
    | ok tok =>
      cases h2 : getTopic log 2 with
      | error e =>
        simp [h1, hc1, h2, Except.isOk, Except.toBool, Except.bind, Bind.bind]
      | ok t2 =>
        cases hc2 : checksumOfTopic t2 with
        | error e =>
          simp [h1, hc1, h2, hc2, Except.isOk, Except.toBool, Except.bind, Bind.bind]
        | ok snd =>
          simp [h1, hc1, h2, hc2, h3, Except.isOk, Except.toBool, Except.bind, Bind.bind]

theorem decode_requires_four_topics_witness :
    truncatedLog.topics.length < 4 ∧ (_parse_log truncatedLog).isOk = false :=
  ⟨by decide, decode_requires_four_topics truncatedLog (by decide)⟩

/-- Claim C5: the scan cursor is monotonically non-decreasing across
cycles — for any initial cursor and any sequence of cycle environments
(arbitrary reported heads, including decreasing ones, and arbitrary query
outcomes), the cursor after the first `n + 1` cycles is at least the
cursor after the first `n` cycles. -/
theorem cursor_monotone (confirmations c0 : Int) (inps : List CycleInput)
    (n : Nat) :
    runCycles confirmations c0 (inps.take n) ≤
      runCycles confirmations c0 (inps.take (n + 1)) := by
  induction inps generalizing c0 n with
  | nil =>
    rw [List.take_nil, List.take_nil]
  | cons a as ih =>
    cases n with
    | zero => exact cursor_le_step confirmations c0 a
    | succ m => exact ih (step confirmations c0 a) m

/-- Claim C6: two consecutive cycles that both commit scan contiguous,
disjoint ranges — if the first commits `[a,b]` then the second commits
`[b+1,c]`, and the two ranges partition `[a,c]`: every height in `[a,c]`
lies in exactly one of them. -/
theorem consecutive_commits_partition (confirmations c0 : Int)
    (i1 i2 : CycleInput) (a b a2 c : Int)
    (h1 : commitRange confirmations c0 i1 = some (a, b))
    (h2 : commitRange confirmations (step confirmations c0 i1) i2 = some (a2, c)) :
    a2 = b + 1 ∧ a ≤ b ∧ b + 1 ≤ c ∧
    (∀ h : Int, (a ≤ h ∧ h ≤ c) ↔ ((a ≤ h ∧ h ≤ b) ∨ (b + 1 ≤ h ∧ h ≤ c))) ∧
    (∀ h : Int, ¬((a ≤ h ∧ h ≤ b) ∧ (b + 1 ≤ h ∧ h ≤ c))) := by
  obtain ⟨head1, q1⟩ := i1
  obtain ⟨head2, q2⟩ := i2
  cases head1 with
  | none => simp [commitRange] at h1
  | some l1 =>
    cases head2 with
    | none => simp [commitRange, step, runCycle] at h2
    | some l2 =>
      simp only [commitRange, step, runCycle] at h1 h2
      by_cases hc1 : c0 + 1 ≤ l1 - confirmations
      · rw [if_pos hc1] at h1 h2
        simp only [Option.some.injEq, Prod.mk.injEq] at h1
        obtain ⟨ha, hb⟩ := h1
        by_cases hc2 : (l1 - confirmations, (scan_blocks (c0 + 1)
            (l1 - confirmations) q1).1).1 + 1 ≤ l2 - confirmations
        · rw [if_pos hc2] at h2
          simp only [Option.some.injEq, Prod.mk.injEq] at h2
          obtain ⟨ha2, hc⟩ := h2
          dsimp only at ha2 hc hc2
          refine ⟨?_, ?_, ?_, fun h => ?_, fun h => ?_⟩ <;> omega
        · rw [if_neg hc2] at h2
          exact absurd h2 (by simp)
      · rw [if_neg hc1] at h1
        exact absurd h1 (by simp)

theorem consecutive_commits_partition_witness :
    commitRange 6 99 ⟨some 116, QueryResult.success []⟩ = some (100, 110) ∧
    commitRange 6 (step 6 99 ⟨some 116, QueryResult.success []⟩)
      ⟨some 122, QueryResult.blockNotFound⟩ = some (111, 116) ∧
    (111 : Int) = 110 + 1 :=
  ⟨by decide, by decide,
   (consecutive_commits_partition 6 99 ⟨some 116, QueryResult.success []⟩
     ⟨some 122, QueryResult.blockNotFound⟩ 100 110 111 116
     (by decide) (by decide)).1⟩

/-- Claim C7: decode round-trip — a synthetic raw log built with the fixed
encoding (token and sender right-aligned 20-byte addresses in 32-byte topic
slots 1 and 2, nonce as a 256-bit integer in topic slot 3, amount in data
bytes [0,32) and destinationChainId in data bytes [32,64), big-endian)
decodes back to exactly that tuple, the addresses recovered as their
20-byte values. -/
theorem decode_roundtrip (sig : List Nat) (tok snd non amt dst : Nat)
    (txh : List Nat) (bn : Int)
    (htok : tok < 256 ^ 20) (hsen : snd < 256 ^ 20)
    (hnon : non < 256 ^ 32) (hamt : amt < 256 ^ 32) (hdst : dst < 256 ^ 32) :
    _parse_log (mkSyntheticLog sig tok snd non amt dst txh bn) =
      Except.ok { token := natToBytesBE 20 tok, sender := natToBytesBE 20 snd,
                  nonce := non, amount := amt, destinationChainId := dst,
                  transactionHash := txh, blockNumber := bn } := by
  have e1 : getTopic (mkSyntheticLog sig tok snd non amt dst txh bn) 1 =
      Except.ok (natToBytesBE 32 tok) := rfl
  have e2 := checksumOfTopic_natToBytesBE tok htok
  have e3 : getTopic (mkSyntheticLog sig tok snd non amt dst txh bn) 2 =
      Except.ok (natToBytesBE 32 snd) := rfl
  have e4 := checksumOfTopic_natToBytesBE snd hsen
  have e5 : getTopic (mkSyntheticLog sig tok snd non amt dst txh bn) 3 =
      Except.ok (natToBytesBE 32 non) := rfl
  have e6 := toIntOfTopic_natToBytesBE non hnon
  have hd1 : (mkSyntheticLog sig tok snd non amt dst txh bn).data.take 32 =
      natToBytesBE 32 amt := take_append_eq _ _ 32 (length_natToBytesBE 32 amt)
  have hd2 : ((mkSyntheticLog sig tok snd non amt dst txh bn).data.drop 32).take 32 =
      natToBytesBE 32 dst := by
    have hdr : (mkSyntheticLog sig tok snd non amt dst txh bn).data.drop 32 =
        natToBytesBE 32 dst := drop_append_eq _ _ 32 (length_natToBytesBE 32 amt)
    rw [hdr]
    exact take_all_eq _ 32 (length_natToBytesBE 32 dst)
  unfold _parse_log
  simp only [e1, e2, e3, e4, e5, e6, Bind.bind, Except.bind, hd1, hd2,
             bytesToNat_natToBytesBE 32 amt hamt,
             bytesToNat_natToBytesBE 32 dst hdst]
  rfl

theorem decode_roundtrip_witness :
    ((1 : Nat) < 256 ^ 20 ∧ (2 : Nat) < 256 ^ 20 ∧ (3 : Nat) < 256 ^ 32 ∧
      (4 : Nat) < 256 ^ 32 ∧ (5 : Nat) < 256 ^ 32) ∧
    _parse_log (mkSyntheticLog (natToBytesBE 32 0) 1 2 3 4 5 [170] 100) =
      Except.ok { token := natToBytesBE 20 1, sender := natToBytesBE 20 2,
                  nonce := 3, amount := 4, destinationChainId := 5,
                  transactionHash := [170], blockNumber := 100 } :=
  ⟨⟨by norm_num, by norm_num, by norm_num, by norm_num, by norm_num⟩,
   decode_roundtrip (natToBytesBE 32 0) 1 2 3 4 5 [170] 100
     (by norm_num) (by norm_num) (by norm_num) (by norm_num) (by norm_num)⟩

/-- Claim C8: decoding is deterministic — two invocations of `_parse_log`
on byte-identical raw logs produce identical decoded records. (In this
embedding `_parse_log` is a pure function of the raw log alone: the source
reads no scanner state in `_parse_log` beyond the log argument, its only
side effect being a log line.) -/
theorem decode_deterministic (l1 l2 : RawLog) (h : l1 = l2) :
    _parse_log l1 = _parse_log l2 := by
  rw [h]

theorem decode_deterministic_witness :
    goodLogA = goodLogA ∧ _parse_log goodLogA = _parse_log goodLogA :=
  ⟨rfl, decode_deterministic goodLogA goodLogA rfl⟩

/-- Claim C9: for `from_block > to_block` the scanner returns the empty
list and issues zero `get_logs` network calls (the second component counts
the queries issued), whatever the ledger would have answered — a normal
result, not an error. -/
theorem scan_empty_range_no_query (from_block to_block : Int)
    (q : QueryResult) (h : to_block < from_block) :
    scan_blocks from_block to_block q = ([], 0) := by
  unfold scan_blocks
  rw [if_pos h]

theorem scan_empty_range_no_query_witness :
    (3 : Int) < 5 ∧ scan_blocks 5 3 QueryResult.blockNotFound = ([], 0) :=
  ⟨by norm_num, scan_empty_range_no_query 5 3 QueryResult.blockNotFound (by norm_num)⟩

/-- Claim C10: `scan_blocks` never raises (in this embedding it is a total
function into a plain list — every `except` branch of the source returns a
value), and every failure path yields the empty list: `BlockNotFound`, any
other query error, and a batch containing an undecodable log all return
exactly what a successful scan with zero matching events returns, so the
caller cannot tell them apart from the return value alone. -/
theorem scan_failure_indistinguishable (from_block to_block : Int)
    (logs : List RawLog) :
    (scan_blocks from_block to_block QueryResult.blockNotFound).1 = [] ∧
    (scan_blocks from_block to_block QueryResult.otherError).1 = [] ∧
    ((∃ l ∈ logs, (_parse_log l).isOk = false) →
      (scan_blocks from_block to_block (QueryResult.success logs)).1 = []) ∧
    (scan_blocks from_block to_block (QueryResult.success [])).1 = [] := by
  unfold scan_blocks
  by_cases hgt : from_block > to_block
  · simp [hgt]
  · simp only [if_neg hgt]
    refine ⟨by trivial, by trivial, ?_, by trivial⟩
    rintro ⟨l, hmem, hbad⟩
    obtain ⟨e, he⟩ := parseAll_error_of_mem logs l hmem hbad
    simp [he]

theorem scan_failure_indistinguishable_witness :
    (scan_blocks 100 102 (QueryResult.success [truncatedLog])).1 = [] :=
  (scan_failure_indistinguishable 100 102 [truncatedLog]).2.2.1
    ⟨truncatedLog, by decide, by decide⟩

end ForgeBridge
